import Mathlib

/-!
Shallow embedding of the Streamlit-chess dashboard core (src/app.py,
src/utils.py): the filtering/aggregation pipeline over the in-memory game
table and the move-replay engine, together with theorems settling the
specification claims.

The pandas DataFrame is modelled as a list of `Game` rows plus a list of
columns added by item assignment (`data[col] = ...`); pandas operations
that return new objects leave the modelled frame unchanged, and item
assignment appends to `extra_cols`.  The chess-rules collaborator
(`python-chess`) is external: a board position is modelled by the history
of SAN move strings pushed onto it from the standard initial position, and
the move object returned by `board.push_san(m)` is modelled by `m` itself.
-/

/-- One row of the game table (the columns of games_revisited.csv used by
the dashboard).  Ratings and the numeric columns are integers as in the
source data. -/
structure Game where
  id : String
  rated : Bool
  turns : Int
  white_rating : Int
  black_rating : Int
  winner : String
  victory_status : String
  time_control_category : String
  increment : Int
  initial_time : Int
  opening_name : String
  opening_ply : Int
  moves : String
deriving DecidableEq, Repr

/-- A pandas DataFrame: its rows plus any columns added afterwards by item
assignment (`data[col] = values`). -/
structure DataFrame where
  rows : List Game
  extra_cols : List (String × List Int)
deriving DecidableEq, Repr

/-- pandas `Series.between(lo, hi)`: inclusive range test. -/
def between (x lo hi : Int) : Prop := lo ≤ x ∧ x ≤ hi

instance (x lo hi : Int) : Decidable (between x lo hi) := by
  unfold between; infer_instance

/-- app.py lines 61-64: the rating filter applied to the data feeding the
statistical plots.  `filtered_data[(white.between(lower, upper)) |
(black.between(lower, upper))]` — the user-selected bounds are used
as-is. -/
def rating_filter_plot (lo hi : Int) (rows : List Game) : List Game :=
  rows.filter fun g =>
    decide (between g.white_rating lo hi) || decide (between g.black_rating lo hi)

/-- app.py lines 158-168: the rating filter applied to the games list of
the chess-board tab.  The bounds are widened by 50 on each side
(`rating_lower_bound -= 50; rating_upper_bound += 50`) before the same
between-or-between test. -/
def rating_filter_games (lo hi : Int) (rows : List Game) : List Game :=
  rows.filter fun g =>
    decide (between g.white_rating (lo - 50) (hi + 50)) ||
      decide (between g.black_rating (lo - 50) (hi + 50))

/-- app.py lines 214-218: the forward step of the replay session.
`current_move_index += 1` guarded by
`current_move_index < len(moves) - 1`, with Python integer subtraction
(so for an empty move list the guard compares against `-1`). -/
def step_forward (n i : Nat) : Nat :=
  if (i : Int) < (n : Int) - 1 then i + 1 else i

/-- app.py lines 208-212: the backward step of the replay session.
`current_move_index -= 1` guarded by `current_move_index > 0`. -/
def step_backward (i : Nat) : Nat :=
  if 0 < i then i - 1 else i

/-- A user interaction with the two navigation buttons. -/
inductive Step where
  | fwd : Step
  | bwd : Step
deriving DecidableEq, Repr

/-- Apply one navigation step to the current move index. -/
def applyStep (n : Nat) (s : Step) (i : Nat) : Nat :=
  match s with
  | Step.fwd => step_forward n i
  | Step.bwd => step_backward i

/-- Apply a sequence of navigation steps in order. -/
def applySteps (n : Nat) (ss : List Step) (i : Nat) : Nat :=
  ss.foldl (fun j s => applyStep n s j) i

/-- utils.py `update_chess_board(moves, current_move_index)`: starts from
`chess.Board()` (modelled as the empty push history) and `last_move =
None`, then pushes every move of the Python slice
`moves[:current_move_index + 1]`, recording each pushed move as
`last_move`.  Returns the final board (its push history) and the last
pushed move. -/
def update_chess_board (moves : List String) (current_move_index : Nat) :
    List String × Option String :=
  (moves.take (current_move_index + 1)).foldl
    (fun st m => (st.1 ++ [m], some m)) (([] : List String), (none : Option String))

/-- utils.py `get_move_list(op_data, selected_opening)`: takes the `moves`
string of the first row whose `opening_name` matches (`.loc[...].iloc[0]`),
splits it on whitespace; on `IndexError` (no matching row) returns `[]`. -/
def get_move_list (op_data : List Game) (selected_opening : String) :
    List String :=
  match op_data.find? (fun g => g.opening_name = selected_opening) with
  | some g => (g.moves.splitOn " ").filter (fun s => s ≠ "")
  | none => []

/-- app.py line 206: `st.session_state['moves'][current_move_index]`, the
unguarded indexing of the move list; `none` models the `IndexError` it
raises when the index is out of range. -/
def current_move (moves : List String) (i : Nat) : Option String :=
  moves.get? i

/-- The distinct values of a list in order of first appearance (the group
keys produced by pandas counting/grouping, before any sorting). -/
def uniq {α : Type} [DecidableEq α] : List α → List α
  | [] => []
  | x :: xs => x :: (uniq xs).filter (fun y => decide (y ≠ x))

/-- pandas `Series.value_counts()`: one `(value, count)` pair per distinct
value, sorted by count in descending order (stable, so ties keep
first-appearance order). -/
def value_counts (l : List String) : List (String × Nat) :=
  List.insertionSort (fun a b : String × Nat => b.2 ≤ a.2)
    ((uniq l).map (fun n => (n, l.count n)))

/-- utils.py `plot_winning_rates(data)`: returns `None` when the frame is
empty, otherwise the tally of the `winner` column feeding the pie chart.
The frame is returned unchanged (the function only reads it). -/
def plot_winning_rates (df : DataFrame) :
    Option (List (String × Nat)) × DataFrame :=
  if df.rows = [] then (none, df)
  else (some (value_counts (df.rows.map Game.winner)), df)

/-- utils.py line 89: the fixed five-color palette of
`plot_most_played_openings`. -/
def custom_colors : List String :=
  ["#FFBE0B", "#FB5607", "#FF006E", "#8338EC", "#3A86FF"]

/-- utils.py `plot_most_played_openings(data)`: `value_counts` over
`opening_name`, `nlargest(5, count)` (the first five rows of the
already-descending tally), then `custom_colors[:len]` assigned row by row.
Returns the `(name, count, color)` rows and the unchanged frame. -/
def plot_most_played_openings (df : DataFrame) :
    List (String × Nat × String) × DataFrame :=
  let oc := (value_counts (df.rows.map Game.opening_name)).take 5
  (oc.zipWith (fun p c => (p.1, p.2, c)) custom_colors, df)

/-- Code-point-wise comparison of character lists: the lexicographic
order Python (and hence pandas) uses on strings. -/
def charListLe : List Char → List Char → Bool
  | [], _ => true
  | _ :: _, [] => false
  | c :: cs, d :: ds =>
    if c.val < d.val then true
    else if d.val < c.val then false
    else charListLe cs ds

/-- Python string comparison: lexicographic by code point. -/
def strLe (a b : String) : Prop := charListLe a.data b.data = true

instance : DecidableRel strLe := fun a b =>
  inferInstanceAs (Decidable (charListLe a.data b.data = true))

/-- utils.py line 68: `data.groupby(['opening_name','winner']).size()
.unstack(fill_value=0)` read at its `white` and `black` columns — one row
per opening (groupby sorts the keys alphabetically) with the white-win
and black-win counts, `fill_value=0` supplying the 0 cells of openings
that lack one of the two outcomes.  Valid only when the frame has at
least one white-win row and at least one black-win row, since `unstack`
only creates columns for winner values present in the frame; the caller
`plot_top_openings` models the `KeyError` of the missing-column case.
The `draw` column of the unstacked frame is never read downstream. -/
def pivot_openings (rows : List Game) : List (String × Nat × Nat) :=
  (List.insertionSort strLe
      (uniq (rows.map Game.opening_name))).map fun n =>
    (n,
     (rows.filter (fun g => decide (g.opening_name = n) &&
        decide (g.winner = "white"))).length,
     (rows.filter (fun g => decide (g.opening_name = n) &&
        decide (g.winner = "black"))).length)

/-- The row order of `DataFrame.nlargest(5, ['white', 'black'])`: sort by
the white-win count in descending order, breaking ties by the black-win
count in descending order (lexicographic, not by the sum). -/
def leWB (p q : String × Nat × Nat) : Prop :=
  q.2.1 < p.2.1 ∨ (p.2.1 = q.2.1 ∧ q.2.2 ≤ p.2.2)

instance : DecidableRel leWB := fun p q =>
  inferInstanceAs (Decidable (q.2.1 < p.2.1 ∨ (p.2.1 = q.2.1 ∧ q.2.2 ≤ p.2.2)))

/-- utils.py `plot_top_openings(data)` (with the default
`sort_by='winning_rate'`): pivot winner counts per opening, then
`nlargest(5, ['white', 'black'])`.  `unstack(fill_value=0)` only creates
count columns for winner values present in the frame, so when the frame
has no white-win row or no black-win row (in particular when it is
empty), `nlargest` raises a `KeyError` on the missing column — `none`
models that raised error.  Otherwise returns the `(opening_name,
white_wins, black_wins)` rows of the bar chart and the unchanged
frame. -/
def plot_top_openings (df : DataFrame) :
    Option (List (String × Nat × Nat)) × DataFrame :=
  if (df.rows.any fun g => decide (g.winner = "white")) &&
      (df.rows.any fun g => decide (g.winner = "black")) then
    (some ((List.insertionSort leWB (pivot_openings df.rows)).take 5), df)
  else (none, df)

/-- utils.py line 269: the per-row duration
`initial_time + turns * increment`. -/
def game_duration (g : Game) : Int :=
  g.initial_time + g.turns * g.increment

/-- utils.py `plot_opening_vs_game_duration(data, top_most_played)`:
first assigns `data['total_duration'] = initial_time + turns * increment`
(item assignment, so the input frame gains a column), then groups by
`opening_name` (mean duration and row count), takes the ten openings with
the largest row count, and left-joins each with its color from
`top_most_played`, filling misses with `'#cccccc'`.  Returns the scatter
rows and the frame as it stands after the call. -/
def plot_opening_vs_game_duration (df : DataFrame)
    (top_most_played : List (String × Nat × String)) :
    List (String × ℚ × String) × DataFrame :=
  let df' : DataFrame :=
    ⟨df.rows, df.extra_cols ++ [("total_duration", df.rows.map game_duration)]⟩
  let grouped :=
    (List.insertionSort strLe
        (uniq (df.rows.map Game.opening_name))).map fun n =>
      let rs := df.rows.filter (fun g => decide (g.opening_name = n))
      (n, ((rs.map (fun g => (game_duration g : ℚ))).sum) / (rs.length : ℚ),
       rs.length)
  let top :=
    (List.insertionSort
        (fun a b : String × ℚ × Nat => b.2.2 ≤ a.2.2) grouped).take 10
  (top.map (fun p =>
     (p.1, p.2.1,
      ((top_most_played.find? (fun q => q.1 = p.1)).map
         (fun q => q.2.2)).getD "#cccccc")), df')

/-- A value placed in the details row rendered by
`display_opening_details`: an integer, a string, or the `'N/A'`
sentinel. -/
inductive Cell where
  | intVal : Int → Cell
  | strVal : String → Cell
  | na : Cell
deriving DecidableEq, Repr

/-- The row `display_opening_details` renders: opening ply, game count,
modal winner, modal time-control category. -/
structure OpeningDetailsRow where
  opening_ply : Cell
  game_number : Cell
  most_winner_color : Cell
  most_played_time_category : Cell
deriving DecidableEq, Repr

/-- pandas `Series.mode().iloc[0]`: the most frequent value; `mode()`
returns the modes sorted, so `.iloc[0]` is the lexicographically smallest
among the most frequent.  `none` models the `IndexError` on an empty
series. -/
def seriesMode (l : List String) : Option String :=
  let vc := (uniq l).map (fun n => (n, l.count n))
  let m := (vc.map Prod.snd).foldl max 0
  ((vc.filter (fun p => decide (p.2 = m))).map Prod.fst).min?

/-- utils.py `display_opening_details(data, opening_name)`: filters the
table to the opening's rows, then builds the details row; the three modal
or first-row fields fall back to `'N/A'` when no row matches, while
`"Game Number"` is `len(opening_data)` unconditionally. -/
def display_opening_details (data : List Game) (opening_name : String) :
    OpeningDetailsRow :=
  let opening_data := data.filter (fun g => decide (g.opening_name = opening_name))
  let most_winning_color :=
    if opening_data ≠ [] then
      ((seriesMode (opening_data.map Game.winner)).map Cell.strVal).getD Cell.na
    else Cell.na
  let most_played_time_category :=
    if opening_data ≠ [] then
      ((seriesMode (opening_data.map Game.time_control_category)).map
         Cell.strVal).getD Cell.na
    else Cell.na
  let games_count := opening_data.length
  { opening_ply :=
      match opening_data with
      | g :: _ => Cell.intVal g.opening_ply
      | [] => Cell.na
    game_number := Cell.intVal games_count
    most_winner_color := most_winning_color
    most_played_time_category := most_played_time_category }

/-- A representative row of games_revisited.csv, used for concrete
evaluations. -/
def sampleGame : Game :=
  { id := "TZJHLljE", rated := true, turns := 13, white_rating := 1500,
    black_rating := 1191, winner := "white", victory_status := "outoftime",
    time_control_category := "Blitz", increment := 2, initial_time := 600,
    opening_name := "Slav Defense", opening_ply := 5,
    moves := "d4 d5 c4 c6 cxd5" }

/-- Build a row with a given opening name and winner, other columns as in
`sampleGame`. -/
def mkGame (name winner : String) : Game :=
  { sampleGame with opening_name := name, winner := winner }

lemma mem_uniq {α : Type} [DecidableEq α] :
    ∀ (l : List α) (x : α), x ∈ uniq l ↔ x ∈ l := by
  intro l
  induction l with
  | nil => intro x; simp [uniq]
  | cons y ys ih =>
    intro x
    rw [show uniq (y :: ys) = y :: (uniq ys).filter (fun z => decide (z ≠ y))
      from rfl]
    constructor
    · intro hx
      rcases List.mem_cons.mp hx with h | h
      · simp [h]
      · exact List.mem_cons.mpr (Or.inr ((ih x).mp (List.mem_filter.mp h).1))
    · intro hx
      rcases List.mem_cons.mp hx with h | h
      · simp [h]
      · by_cases hxy : x = y
        · simp [hxy]
        · refine List.mem_cons.mpr (Or.inr ?_)
          exact List.mem_filter.mpr ⟨(ih x).mpr h, by simpa using hxy⟩

lemma uniq_nodup {α : Type} [DecidableEq α] : ∀ l : List α, (uniq l).Nodup := by
  intro l
  induction l with
  | nil => simp [uniq]
  | cons y ys ih =>
    rw [show uniq (y :: ys) = y :: (uniq ys).filter (fun z => decide (z ≠ y))
      from rfl]
    refine List.Pairwise.cons ?_ (List.Nodup.filter _ ih)
    intro z hz
    have := (List.mem_filter.mp hz).2
    simp only [decide_eq_true_eq] at this
    exact fun h => this h.symm

lemma sum_map_filter_ne {α : Type} [DecidableEq α] (f : α → Nat) (x : α) :
    ∀ L : List α, L.Nodup →
      (L.map f).sum =
        ((L.filter (fun y => decide (y ≠ x))).map f).sum +
          (if x ∈ L then f x else 0) := by
  intro L
  induction L with
  | nil => intro _; simp
  | cons y ys ih =>
    intro hnd
    have hys : ys.Nodup := hnd.of_cons
    by_cases h : y = x
    · subst h
      have hnot : y ∉ ys := (List.nodup_cons.mp hnd).1
      have hfilter : ys.filter (fun z => decide (z ≠ y)) = ys := by
        rw [List.filter_eq_self]
        intro a ha
        simp only [decide_eq_true_eq]
        exact fun hc => hnot (hc ▸ ha)
      have hdrop : (decide (y ≠ y)) = false := by simp
      rw [List.filter_cons, hdrop]
      simp only [Bool.false_eq_true, if_false]
      rw [hfilter, List.map_cons, List.sum_cons]
      simp [Nat.add_comm]
    · rw [List.filter_cons]
      have hkeep : (decide (y ≠ x)) = true := by simpa using h
      rw [hkeep]
      simp only [if_true, List.map_cons, List.sum_cons]
      have hx : (x ∈ y :: ys) ↔ (x ∈ ys) := by
        constructor
        · intro hm
          rcases List.mem_cons.mp hm with hm | hm
          · exact absurd hm.symm h
          · exact hm
        · exact fun hm => List.mem_cons.mpr (Or.inr hm)
      rw [ih hys]
      by_cases hxm : x ∈ ys
      · simp only [hx, hxm, if_true]
        omega
      · simp only [hx, hxm, if_false]
        omega

lemma sum_counts {α : Type} [DecidableEq α] :
    ∀ l : List α, ((uniq l).map (fun n => l.count n)).sum = l.length := by
  intro l
  induction l with
  | nil => simp [uniq]
  | cons x xs ih =>
    rw [show uniq (x :: xs) = x :: (uniq xs).filter (fun z => decide (z ≠ x))
      from rfl]
    rw [List.map_cons, List.sum_cons]
    have hmap :
        ((uniq xs).filter (fun z => decide (z ≠ x))).map
            (fun n => (x :: xs).count n) =
          ((uniq xs).filter (fun z => decide (z ≠ x))).map
            (fun n => xs.count n) := by
      refine List.map_congr_left ?_
      intro n hn
      have hne : n ≠ x := by
        have := (List.mem_filter.mp hn).2
        simpa using this
      rw [List.count_cons]
      simp [hne.symm]
    rw [hmap]
    have hsplit := sum_map_filter_ne (fun n => xs.count n) x (uniq xs)
      (uniq_nodup xs)
    have hb : ((fun n => xs.count n) x) = xs.count x := rfl
    rw [ih, hb] at hsplit
    have hx : (x :: xs).count x = xs.count x + 1 := by simp [List.count_cons]
    rw [hx]
    by_cases hxm : x ∈ xs
    · have hxu : x ∈ uniq xs := (mem_uniq xs x).mpr hxm
      rw [if_pos hxu] at hsplit
      simp only [List.length_cons]
      omega
    · have hxu : x ∉ uniq xs := fun hc => hxm ((mem_uniq xs x).mp hc)
      rw [if_neg hxu] at hsplit
      have hc0 : xs.count x = 0 := List.count_eq_zero.mpr hxm
      simp only [List.length_cons]
      omega

lemma value_counts_sum (l : List String) :
    ((value_counts l).map Prod.snd).sum = l.length := by
  unfold value_counts
  have hperm :=
    List.perm_insertionSort (fun a b : String × Nat => b.2 ≤ a.2)
      ((uniq l).map (fun n => (n, l.count n)))
  rw [(hperm.map Prod.snd).sum_eq, List.map_map]
  exact sum_counts l

lemma getLast?_cons_or (x : String) (xs : List String) :
    (x :: xs).getLast? = (xs.getLast?).or (some x) := by
  induction xs generalizing x with
  | nil => rfl
  | cons y ys ih =>
    rw [List.getLast?_cons_cons, ih y]
    cases h : ys.getLast? with
    | some z => rfl
    | none => rfl

lemma push_loop_eq (l : List String) :
    ∀ (a : List String) (m : Option String),
      l.foldl (fun st m' => (st.1 ++ [m'], some m')) (a, m) =
        (a ++ l, (l.getLast?).or m) := by
  induction l with
  | nil => intro a m; simp
  | cons x xs ih =>
    intro a m
    rw [List.foldl_cons, ih (a ++ [x]) (some x), getLast?_cons_or]
    cases h : xs.getLast? with
    | some z => simp [Option.or]
    | none => simp [Option.or]

lemma getLast?_take_succ :
    ∀ (l : List String) (i : Nat), i < l.length →
      (l.take (i + 1)).getLast? = l.get? i := by
  intro l
  induction l with
  | nil => intro i h; simp at h
  | cons x xs ih =>
    intro i h
    cases i with
    | zero => simp
    | succ j =>
      have hj : j < xs.length := by
        simpa [List.length_cons, Nat.succ_lt_succ_iff] using h
      rw [List.take_succ_cons, getLast?_cons_or, ih j hj,
        List.get?_eq_get hj]
      simp [Option.or, List.get?_eq_get hj]

/-- C1: the claim reads "a game is retained by the rating filter if and
only if either side's rating falls in the widened range [lo-50, hi+50];
this ±50 margin is applied before matching in every place the rating-range
filter is applied."  The plot-level filter (app.py lines 61-64) uses the
raw bounds: the game below has both ratings equal to 60, inside the
widened range [100-50, 200+50] = [50, 250], yet it is dropped by the
plot-level rating filter for the range [100, 200]. -/
theorem C1_counterexample :
    ¬ ({ sampleGame with white_rating := 60, black_rating := 60 } ∈
         rating_filter_plot 100 200
           [{ sampleGame with white_rating := 60, black_rating := 60 }] ↔
       ({ sampleGame with white_rating := 60, black_rating := 60 } ∈
          [{ sampleGame with white_rating := 60, black_rating := 60 }] ∧
        (between 60 (100 - 50) (200 + 50) ∨
         between 60 (100 - 50) (200 + 50)))) := by
  decide

/-- C1 (amended): the ±50 widening is applied only in the games-list
filter of the chess-board tab (app.py lines 158-168); the plot-level
rating filter (app.py lines 61-64) retains a game iff either side's
rating falls in the raw user-selected range [lo, hi].  For every range and
table, both filters retain exactly the rows whose ratings satisfy the
respective range test. -/
theorem C1_rating_filters (lo hi : Int) (rows : List Game) (g : Game) :
    (g ∈ rating_filter_games lo hi rows ↔
      g ∈ rows ∧ (between g.white_rating (lo - 50) (hi + 50) ∨
                  between g.black_rating (lo - 50) (hi + 50))) ∧
    (g ∈ rating_filter_plot lo hi rows ↔
      g ∈ rows ∧ (between g.white_rating lo hi ∨
                  between g.black_rating lo hi)) := by
  constructor
  · simp only [rating_filter_games, List.mem_filter, Bool.or_eq_true,
      decide_eq_true_eq]
  · simp only [rating_filter_plot, List.mem_filter, Bool.or_eq_true,
      decide_eq_true_eq]

/-- C3: the claim reads "returns last_move = none whenever index is out of
range or the move list is empty".  For the one-move list and the
out-of-range index 5, the Python slice `moves[:6]` is the whole list, so
the returned last move is the final move, not none. -/
theorem C3_counterexample :
    (["e4"] : List String).length ≤ 5 ∧
    (update_chess_board ["e4"] 5).2 ≠ none := by
  decide

/-- C3 (amended): `update_chess_board(moves, index)` returns the position
reached by applying the prefix `moves[:index+1]` (so an out-of-range index
is clamped to the last move rather than rejected) together with the last
move of that prefix; when the index is in range this is exactly the
position after moves 0..index and the move applied at index, and the
returned last move is none iff the move list is empty; in particular
`update_chess_board([], 0)` is the initial position with no last move. -/
theorem C3_update_chess_board (moves : List String) (i : Nat) :
    (update_chess_board moves i =
       (moves.take (i + 1), (moves.take (i + 1)).getLast?)) ∧
    (∀ h : i < moves.length,
       update_chess_board moves i =
         (moves.take (i + 1), some (moves.get ⟨i, h⟩))) ∧
    (update_chess_board [] i = ([], none)) ∧
    ((update_chess_board moves i).2 = none ↔ moves = []) := by
  have hmain : update_chess_board moves i =
      (moves.take (i + 1), (moves.take (i + 1)).getLast?) := by
    unfold update_chess_board
    rw [push_loop_eq]
    cases h : (moves.take (i + 1)).getLast? with
    | some z => simp [Option.or]
    | none => simp [Option.or]
  refine ⟨hmain, ?_, ?_, ?_⟩
  · intro h
    rw [hmain, getLast?_take_succ moves i h, List.get?_eq_get h]
  · unfold update_chess_board
    simp
  · have h2 : (update_chess_board moves i).2 = (moves.take (i + 1)).getLast? := by
      rw [hmain]
    rw [h2]
    constructor
    · intro h
      cases moves with
      | nil => rfl
      | cons x xs =>
        rw [List.take_succ_cons, getLast?_cons_or] at h
        cases hx : (List.take i xs).getLast? with
        | some z => rw [hx] at h; exact absurd h (by simp [Option.or])
        | none => rw [hx] at h; exact absurd h (by simp [Option.or])
    · intro h
      subst h
      simp

/-- C3 witness: for the in-range index 1 of a two-move list, the board is
the position after both moves and the last move is the move at index 1. -/
theorem C3_witness :
    update_chess_board ["e4", "e5"] 1 =
      (["e4", "e5"], some "e5") := by
  have := (C3_update_chess_board ["e4", "e5"] 1).2.1 (by decide)
  simpa using this

/-- C4: the claim reads "after computing any derived view (including
duration_vs_opening / plot_opening_vs_game_duration) the input table is
unchanged — no column is added, removed, or modified."
`plot_opening_vs_game_duration` executes the item assignment
`data['total_duration'] = data['initial_time'] + data['turns'] *
data['increment']`, so the caller's frame gains a column. -/
theorem C4_counterexample :
    (plot_opening_vs_game_duration ⟨[sampleGame], []⟩ []).2 ≠
      (⟨[sampleGame], []⟩ : DataFrame) := by
  intro h
  have h2 := congrArg (fun d : DataFrame => d.extra_cols.length) h
  simp [plot_opening_vs_game_duration] at h2

/-- C4 (amended): `plot_winning_rates`, `plot_most_played_openings` and
`plot_top_openings` leave the input frame unchanged, while
`plot_opening_vs_game_duration` adds exactly the column `total_duration`
(holding `initial_time + turns * increment` per row) to the input frame
and changes nothing else. -/
theorem C4_frame_effects (df : DataFrame) (mp : List (String × Nat × String)) :
    (plot_winning_rates df).2 = df ∧
    (plot_most_played_openings df).2 = df ∧
    (plot_top_openings df).2 = df ∧
    (plot_opening_vs_game_duration df mp).2 =
      ⟨df.rows, df.extra_cols ++ [("total_duration", df.rows.map game_duration)]⟩ := by
  refine ⟨?_, rfl, ?_, rfl⟩
  · unfold plot_winning_rates
    split <;> rfl
  · unfold plot_top_openings
    split <;> rfl

lemma applyStep_le (n : Nat) (hn : 0 < n) (s : Step) (i : Nat)
    (hi : i ≤ n - 1) : applyStep n s i ≤ n - 1 := by
  cases s with
  | fwd =>
    simp only [applyStep, step_forward]
    split <;> omega
  | bwd =>
    simp only [applyStep, step_backward]
    split <;> omega

lemma applySteps_le (n : Nat) (hn : 0 < n) :
    ∀ (ss : List Step) (i : Nat), i ≤ n - 1 → applySteps n ss i ≤ n - 1 := by
  intro ss
  induction ss with
  | nil => intro i hi; simpa [applySteps] using hi
  | cons s ss ih =>
    intro i hi
    have h1 : applyStep n s i ≤ n - 1 := applyStep_le n hn s i hi
    simpa [applySteps, List.foldl_cons] using ih (applyStep n s i) h1

/-- C5: for a non-empty move list of length n and a starting index in
[0, n-1], the forward step increments the index exactly when it is below
n-1 and is a no-op otherwise, the backward step decrements exactly when
the index is positive and is a no-op otherwise, and no sequence of steps
ever takes the index outside [0, n-1] (the lower bound holding by the
index being a natural number). -/
theorem C5_step_invariant (n i : Nat) (hn : 0 < n) (hi : i ≤ n - 1) :
    (step_forward n i = if i < n - 1 then i + 1 else i) ∧
    (step_backward i = if 0 < i then i - 1 else i) ∧
    (∀ ss : List Step, applySteps n ss i ≤ n - 1) := by
  refine ⟨?_, rfl, fun ss => applySteps_le n hn ss i hi⟩
  simp only [step_forward]
  split <;> split <;> omega

/-- C5 witness: from index 1 of a three-move list, the step sequence
forward, forward, backward leaves the index within [0, 2]. -/
theorem C5_witness :
    applySteps 3 [Step.fwd, Step.fwd, Step.bwd] 1 ≤ 3 - 1 :=
  (C5_step_invariant 3 1 (by decide) (by decide)).2.2
    [Step.fwd, Step.fwd, Step.bwd]

/-- C8: from any valid index of a non-empty move list, stepping forward
then backward returns the index to its original value whenever the forward
step was not clamped at the upper boundary, and stepping backward then
forward returns it whenever the backward step was not clamped at zero; at
a boundary the clamped transition is a no-op. -/
theorem C8_step_roundtrip (n i : Nat) (hn : 0 < n) (hi : i ≤ n - 1) :
    (i < n - 1 → step_backward (step_forward n i) = i) ∧
    (¬ i < n - 1 → step_forward n i = i) ∧
    (0 < i → step_forward n (step_backward i) = i) ∧
    (¬ 0 < i → step_backward i = i) := by
  simp only [step_forward, step_backward]
  refine ⟨?_, ?_, ?_, ?_⟩ <;> intro h <;> split_ifs <;> omega

/-- C8 witness: at the interior index 1 of a three-move list, forward then
backward restores the index. -/
theorem C8_witness : step_backward (step_forward 3 1) = 1 :=
  (C8_step_roundtrip 3 1 (by decide) (by decide)).1 (by decide)

/-- C9: the claim reads "opening_detail_summary returns the sentinel
'N/A' for each of its fields (opening_ply, game_count, modal_winner,
modal_time_category)" when the opening has zero matching rows.  For a
table with no row of the queried opening, the game-count field is the
integer 0, not the 'N/A' sentinel. -/
theorem C9_counterexample :
    ¬ ((display_opening_details [sampleGame] "No Such Opening").opening_ply
         = Cell.na ∧
       (display_opening_details [sampleGame] "No Such Opening").game_number
         = Cell.na ∧
       (display_opening_details [sampleGame] "No Such Opening").most_winner_color
         = Cell.na ∧
       (display_opening_details [sampleGame]
          "No Such Opening").most_played_time_category = Cell.na) := by
  decide

/-- C9 (amended): when the opening has zero matching rows,
`display_opening_details` returns the 'N/A' sentinel for the opening-ply,
modal-winner and modal-time-category fields and the count 0 (not 'N/A')
for the game-count field, without raising. -/
theorem C9_empty_details (data : List Game) (opening_name : String)
    (h : data.filter (fun g => decide (g.opening_name = opening_name)) = []) :
    display_opening_details data opening_name =
      { opening_ply := Cell.na, game_number := Cell.intVal 0,
        most_winner_color := Cell.na, most_played_time_category := Cell.na } := by
  unfold display_opening_details
  rw [h]
  simp

/-- C9 witness: a concrete one-row table with no row of the queried
opening produces the sentinel row with count 0. -/
theorem C9_witness :
    display_opening_details [sampleGame] "Caro-Kann Defense" =
      { opening_ply := Cell.na, game_number := Cell.intVal 0,
        most_winner_color := Cell.na, most_played_time_category := Cell.na } :=
  C9_empty_details [sampleGame] "Caro-Kann Defense" (by decide)

/-- C10: when no row of the table carries the selected opening name,
`get_move_list` returns the empty list, and the unguarded board-path
access `st.session_state['moves'][current_move_index]` then yields no
value at any index (an IndexError in the source); conversely, whenever
the move list is non-empty every index below its length is safe, so
safety of the access requires exactly the precondition that the selected
opening has a non-empty move list. -/
theorem C10_unguarded_access (op_data : List Game) (opening : String)
    (i : Nat) (hmiss : ∀ g ∈ op_data, g.opening_name ≠ opening) :
    (get_move_list op_data opening = [] ∧
     current_move (get_move_list op_data opening) i = none) ∧
    (∀ (moves : List String) (j : Nat), j < moves.length →
      (current_move moves j).isSome = true) := by
  have hnil : get_move_list op_data opening = [] := by
    unfold get_move_list
    have : op_data.find? (fun g => decide (g.opening_name = opening)) = none := by
      rw [List.find?_eq_none]
      intro g hg
      simpa using hmiss g hg
    rw [this]
  refine ⟨⟨hnil, ?_⟩, ?_⟩
  · rw [hnil]; rfl
  · intro moves j hj
    simp [current_move, List.get?_eq_getElem?, List.getElem?_eq_getElem hj]

/-- C10 witness: for a table whose only opening is the sample game's, a
lookup of a different opening yields the empty move list and the
unguarded access at index 0 yields no value. -/
theorem C10_witness :
    get_move_list [sampleGame] "Sicilian Defense" = [] ∧
    current_move (get_move_list [sampleGame] "Sicilian Defense") 0 = none :=
  (C10_unguarded_access [sampleGame] "Sicilian Defense" 0 (by decide)).1

/-- C7: for every frame, the per-outcome counts of `plot_winning_rates`
sum to the number of rows, and the result is the distinct no-data signal
(None, not a zero-filled tally) exactly when the frame is empty. -/
theorem C7_win_rate_summary (df : DataFrame) :
    ((plot_winning_rates df).1 = none ↔ df.rows = []) ∧
    ((((plot_winning_rates df).1).getD []).map Prod.snd).sum =
      df.rows.length := by
  by_cases h : df.rows = []
  · simp [plot_winning_rates, h]
  · have heq : plot_winning_rates df =
        (some (value_counts (df.rows.map Game.winner)), df) := by
      unfold plot_winning_rates
      rw [if_neg h]
    rw [heq]
    refine ⟨by simp [h], ?_⟩
    simp only [Option.getD_some]
    rw [value_counts_sum, List.length_map]

lemma zipWith_triple_colors :
    ∀ (l : List (String × Nat)) (m : List String),
      (List.zipWith (fun (p : String × Nat) (c : String) =>
          (p.1, p.2, c)) l m).map (fun q => q.2.2) = m.take l.length := by
  intro l
  induction l with
  | nil => intro m; simp
  | cons p ps ih =>
    intro m
    cases m with
    | nil => simp
    | cons c cs =>
      simp [List.zipWith_cons_cons, List.take_succ_cons, ih cs]

lemma zipWith_triple_counts :
    ∀ (l : List (String × Nat)) (m : List String),
      (List.zipWith (fun (p : String × Nat) (c : String) =>
          (p.1, p.2, c)) l m).map (fun q => q.2.1) =
        (l.take m.length).map Prod.snd := by
  intro l
  induction l with
  | nil => intro m; simp
  | cons p ps ih =>
    intro m
    cases m with
    | nil => simp
    | cons c cs =>
      simp [List.zipWith_cons_cons, List.take_succ_cons, ih cs]

lemma mem_zipWith_triple :
    ∀ (l : List (String × Nat)) (m : List String) (q : String × Nat × String),
      q ∈ List.zipWith (fun (p : String × Nat) (c : String) =>
          (p.1, p.2, c)) l m →
      ∃ p ∈ l, q.1 = p.1 ∧ q.2.1 = p.2 := by
  intro l
  induction l with
  | nil => intro m q h; simp at h
  | cons p ps ih =>
    intro m q h
    cases m with
    | nil => simp at h
    | cons c cs =>
      rw [List.zipWith_cons_cons] at h
      rcases List.mem_cons.mp h with h | h
      · subst h
        exact ⟨p, List.mem_cons_self p ps, rfl, rfl⟩
      · obtain ⟨p', hp', h1, h2⟩ := ih cs q h
        exact ⟨p', List.mem_cons.mpr (Or.inr hp'), h1, h2⟩

lemma value_counts_mem (l : List String) (p : String × Nat)
    (hp : p ∈ value_counts l) : p.2 = l.count p.1 := by
  unfold value_counts at hp
  rw [List.mem_insertionSort] at hp
  obtain ⟨n, hn, rfl⟩ := List.mem_map.mp hp
  rfl

lemma value_counts_sorted (l : List String) :
    List.Pairwise (fun a b : String × Nat => b.2 ≤ a.2) (value_counts l) := by
  unfold value_counts
  haveI : IsTotal (String × Nat) (fun a b => b.2 ≤ a.2) :=
    ⟨fun a b => le_total b.2 a.2⟩
  haveI : IsTrans (String × Nat) (fun a b => b.2 ≤ a.2) :=
    ⟨fun a b c h1 h2 => le_trans h2 h1⟩
  exact List.sorted_insertionSort _ _

lemma value_counts_length (l : List String) :
    (value_counts l).length = (uniq l).length := by
  unfold value_counts
  rw [(List.perm_insertionSort _ _).length_eq, List.length_map]

lemma uniq_pairwise_indexOf {α : Type} [DecidableEq α] :
    ∀ l : List α, (uniq l).Pairwise (fun a b => l.indexOf a < l.indexOf b) := by
  intro l
  induction l with
  | nil => exact List.Pairwise.nil
  | cons x xs ih =>
    rw [show uniq (x :: xs) = x :: (uniq xs).filter (fun y => decide (y ≠ x))
      from rfl]
    refine List.Pairwise.cons ?_ ?_
    · intro z hz
      have hzx : z ≠ x := by
        have := (List.mem_filter.mp hz).2
        simpa using this
      rw [List.indexOf_cons_self, List.indexOf_cons_ne _ hzx.symm]
      exact Nat.succ_pos _
    · have hsub : List.Pairwise (fun a b => xs.indexOf a < xs.indexOf b)
          ((uniq xs).filter (fun y => decide (y ≠ x))) :=
        List.Pairwise.sublist (List.filter_sublist _) ih
      refine hsub.imp_of_mem ?_
      intro a b ha hb hab
      have hax : a ≠ x := by
        have := (List.mem_filter.mp ha).2
        simpa using this
      have hbx : b ≠ x := by
        have := (List.mem_filter.mp hb).2
        simpa using this
      rw [List.indexOf_cons_ne _ hax.symm, List.indexOf_cons_ne _ hbx.symm]
      exact Nat.succ_lt_succ hab

lemma filter_key_orderedInsert (k : Nat) (x : String × Nat) :
    ∀ l : List (String × Nat),
      (List.orderedInsert (fun a b => b.2 ≤ a.2) x l).filter
          (fun p => decide (p.2 = k)) =
        if x.2 = k then
          x :: l.filter (fun p => decide (p.2 = k))
        else l.filter (fun p => decide (p.2 = k)) := by
  intro l
  induction l with
  | nil =>
    by_cases hx : x.2 = k
    · simp [List.orderedInsert, hx]
    · simp [List.orderedInsert, hx]
  | cons y ys ih =>
    rw [show List.orderedInsert (fun a b : String × Nat => b.2 ≤ a.2) x (y :: ys) =
        if y.2 ≤ x.2 then x :: y :: ys
        else y :: List.orderedInsert (fun a b : String × Nat => b.2 ≤ a.2) x ys
      from rfl]
    by_cases hr : y.2 ≤ x.2
    · rw [if_pos hr]
      by_cases hx : x.2 = k
      · rw [if_pos hx]
        simp [List.filter_cons, hx]
      · rw [if_neg hx]
        simp [List.filter_cons, hx]
    · rw [if_neg hr]
      simp only [List.filter_cons, ih]
      by_cases hx : x.2 = k
      · have hy : ¬ y.2 = k := fun h => hr (by omega)
        simp [hx, hy]
      · by_cases hy : y.2 = k
        · simp [hx, hy]
        · simp [hx, hy]

lemma filter_key_insertionSort (k : Nat) :
    ∀ l : List (String × Nat),
      (List.insertionSort (fun a b : String × Nat => b.2 ≤ a.2) l).filter
          (fun p => decide (p.2 = k)) =
        l.filter (fun p => decide (p.2 = k)) := by
  intro l
  induction l with
  | nil => rfl
  | cons x xs ih =>
    rw [show List.insertionSort (fun a b : String × Nat => b.2 ≤ a.2) (x :: xs) =
        List.orderedInsert (fun a b : String × Nat => b.2 ≤ a.2) x
          (List.insertionSort (fun a b : String × Nat => b.2 ≤ a.2) xs)
      from rfl]
    rw [filter_key_orderedInsert k x _, ih, List.filter_cons]
    by_cases hx : x.2 = k
    · rw [if_pos hx, if_pos (by simp [hx])]
    · rw [if_neg hx, if_neg (by simp [hx])]

lemma pairwise_of_filter_key {α : Type} (key : α → Nat) (R : α → α → Prop) :
    ∀ l : List α,
      (∀ k : Nat, (l.filter (fun a => decide (key a = k))).Pairwise R) →
      l.Pairwise (fun a b => key a = key b → R a b) := by
  intro l
  induction l with
  | nil => intro _; exact List.Pairwise.nil
  | cons x xs ih =>
    intro h
    refine List.Pairwise.cons ?_ (ih ?_)
    · intro y hy hkey
      have hfx := h (key x)
      rw [List.filter_cons, if_pos (by simp)] at hfx
      have hyf : y ∈ xs.filter (fun a => decide (key a = key x)) :=
        List.mem_filter.mpr ⟨hy, by rw [← hkey]; simp⟩
      exact (List.pairwise_cons.mp hfx).1 y hyf
    · intro k
      have hfk := h k
      rw [List.filter_cons] at hfk
      by_cases hxk : key x = k
      · rw [if_pos (by simp [hxk])] at hfk
        exact (List.pairwise_cons.mp hfk).2
      · rw [if_neg (by simp [hxk])] at hfk
        exact hfk

lemma zipWith_triple_pairs :
    ∀ (l : List (String × Nat)) (m : List String),
      (List.zipWith (fun (p : String × Nat) (c : String) =>
          (p.1, p.2, c)) l m).map (fun q => (q.1, q.2.1)) = l.take m.length := by
  intro l
  induction l with
  | nil => intro m; simp
  | cons p ps ih =>
    intro m
    cases m with
    | nil => simp
    | cons c cs =>
      simp [List.zipWith_cons_cons, List.take_succ_cons, ih cs]

/-- C6: `plot_most_played_openings` returns one entry per opening for at
most five openings (exactly as many as there are distinct openings when
fewer than five exist); the entries are sorted by game count in
descending order with ties broken by the table's natural row order (the
first-occurrence position of the opening in the `opening_name` column);
each entry's count is the opening's row count, and the selected openings
have the largest counts — every opening left out has a count at most
that of every selected entry; each entry's color is the palette entry of
its rank (rank 0 gets palette[0]), with all assigned colors distinct. -/
theorem C6_most_played (df : DataFrame) :
    ((plot_most_played_openings df).1.length =
       min (uniq (df.rows.map Game.opening_name)).length 5) ∧
    List.Pairwise (fun a b : String × Nat × String => b.2.1 ≤ a.2.1)
      (plot_most_played_openings df).1 ∧
    List.Pairwise (fun a b : String × Nat × String =>
      a.2.1 = b.2.1 →
        (df.rows.map Game.opening_name).indexOf a.1 <
          (df.rows.map Game.opening_name).indexOf b.1)
      (plot_most_played_openings df).1 ∧
    (∀ p ∈ (plot_most_played_openings df).1,
       p.2.1 = (df.rows.map Game.opening_name).count p.1) ∧
    (∀ p ∈ (plot_most_played_openings df).1,
       ∀ n ∈ df.rows.map Game.opening_name,
         n ∉ (plot_most_played_openings df).1.map (fun q => q.1) →
           (df.rows.map Game.opening_name).count n ≤ p.2.1) ∧
    ((plot_most_played_openings df).1.map (fun p => p.2.2) =
       custom_colors.take (plot_most_played_openings df).1.length) ∧
    ((plot_most_played_openings df).1.map (fun p => p.2.2)).Nodup := by
  have hres : (plot_most_played_openings df).1 =
      List.zipWith (fun (p : String × Nat) (c : String) => (p.1, p.2, c))
        ((value_counts (df.rows.map Game.opening_name)).take 5)
        custom_colors := rfl
  set oc := value_counts (df.rows.map Game.opening_name) with hoc
  have hoclen : oc.length = (uniq (df.rows.map Game.opening_name)).length :=
    value_counts_length _
  have hcolen : custom_colors.length = 5 := rfl
  have hlen : (plot_most_played_openings df).1.length =
      min (uniq (df.rows.map Game.opening_name)).length 5 := by
    rw [hres, List.length_zipWith, List.length_take, hcolen, hoclen]
    omega
  have htoplen : (oc.take 5).length ≤ 5 := by
    rw [List.length_take]; omega
  have hpair : (plot_most_played_openings df).1.map (fun q => (q.1, q.2.1)) =
      oc.take 5 := by
    rw [hres, zipWith_triple_pairs, hcolen, List.take_take, Nat.min_self]
  have hsorted_oc : oc.Pairwise (fun a b : String × Nat => b.2 ≤ a.2) := by
    rw [hoc]
    exact value_counts_sorted _
  refine ⟨hlen, ?_, ?_, ?_, ?_, ?_, ?_⟩
  · have hm : List.Pairwise (fun x y : Nat => y ≤ x)
        ((plot_most_played_openings df).1.map (fun q => q.2.1)) := by
      rw [hres, zipWith_triple_counts, hcolen, List.take_take]
      exact (List.pairwise_map).mpr
        (List.Pairwise.sublist (List.take_sublist _ _) (value_counts_sorted _))
    exact (List.pairwise_map).mp hm
  · have hL : ((uniq (df.rows.map Game.opening_name)).map
        (fun n => (n, (df.rows.map Game.opening_name).count n))).Pairwise
          (fun a b : String × Nat =>
            (df.rows.map Game.opening_name).indexOf a.1 <
              (df.rows.map Game.opening_name).indexOf b.1) :=
      (List.pairwise_map).mpr (uniq_pairwise_indexOf _)
    have hocStable : ∀ k : Nat,
        (oc.filter (fun p => decide (p.2 = k))).Pairwise
          (fun a b : String × Nat =>
            (df.rows.map Game.opening_name).indexOf a.1 <
              (df.rows.map Game.opening_name).indexOf b.1) := by
      intro k
      rw [hoc]
      unfold value_counts
      rw [filter_key_insertionSort]
      exact List.Pairwise.sublist (List.filter_sublist _) hL
    have hocTie : oc.Pairwise (fun a b : String × Nat =>
        a.2 = b.2 →
          (df.rows.map Game.opening_name).indexOf a.1 <
            (df.rows.map Game.opening_name).indexOf b.1) :=
      pairwise_of_filter_key (fun p => p.2) _ oc hocStable
    have hresT : ((plot_most_played_openings df).1.map
        (fun q => (q.1, q.2.1))).Pairwise
          (fun a b : String × Nat =>
            a.2 = b.2 →
              (df.rows.map Game.opening_name).indexOf a.1 <
                (df.rows.map Game.opening_name).indexOf b.1) := by
      rw [hpair]
      exact List.Pairwise.sublist (List.take_sublist 5 oc) hocTie
    exact (List.pairwise_map).mp hresT
  · intro p hp
    rw [hres] at hp
    obtain ⟨p', hp', h1, h2⟩ := mem_zipWith_triple _ _ p hp
    have hpoc : p' ∈ oc := (List.take_sublist 5 oc).mem hp'
    rw [h1, h2]
    exact value_counts_mem _ _ hpoc
  · intro p hp n hn hnotin
    have hfst : (plot_most_played_openings df).1.map (fun q => q.1) =
        (oc.take 5).map Prod.fst := by
      have h2 := congrArg (List.map Prod.fst) hpair
      rw [List.map_map] at h2
      exact h2
    have hnu : n ∈ uniq (df.rows.map Game.opening_name) := (mem_uniq _ n).mpr hn
    have hnoc : (n, (df.rows.map Game.opening_name).count n) ∈ oc := by
      rw [hoc]
      unfold value_counts
      rw [List.mem_insertionSort]
      exact List.mem_map_of_mem _ hnu
    have hsplit : oc = oc.take 5 ++ oc.drop 5 := (List.take_append_drop 5 oc).symm
    have hcross : ∀ a ∈ oc.take 5, ∀ b ∈ oc.drop 5, b.2 ≤ a.2 :=
      (List.pairwise_append.mp (hsplit ▸ hsorted_oc)).2.2
    have hndrop : (n, (df.rows.map Game.opening_name).count n) ∈ oc.drop 5 := by
      rcases List.mem_append.mp (hsplit ▸ hnoc) with h | h
      · exfalso
        refine hnotin ?_
        rw [hfst]
        exact List.mem_map_of_mem Prod.fst h
      · exact h
    have hppair : (p.1, p.2.1) ∈ oc.take 5 := by
      rw [← hpair]
      exact List.mem_map_of_mem (fun q => (q.1, q.2.1)) hp
    exact hcross _ hppair _ hndrop
  · rw [hres, zipWith_triple_colors]
    have hzl : (List.zipWith
        (fun (p : String × Nat) (c : String) => (p.1, p.2, c))
        (oc.take 5) custom_colors).length = (oc.take 5).length := by
      rw [List.length_zipWith, hcolen, List.length_take]
      omega
    rw [hzl]
  · rw [hres, zipWith_triple_colors]
    exact List.Nodup.sublist (List.take_sublist _ _) (by decide)

lemma leWB_total : ∀ p q : String × Nat × Nat, leWB p q ∨ leWB q p := by
  intro p q
  unfold leWB
  omega

lemma leWB_trans : ∀ a b c : String × Nat × Nat,
    leWB a b → leWB b c → leWB a c := by
  intro a b c h1 h2
  unfold leWB at *
  omega

lemma pivot_openings_counts (rows : List Game) (q : String × Nat × Nat)
    (hq : q ∈ pivot_openings rows) :
    q.2.1 = (rows.filter (fun g => decide (g.opening_name = q.1) &&
               decide (g.winner = "white"))).length ∧
    q.2.2 = (rows.filter (fun g => decide (g.opening_name = q.1) &&
               decide (g.winner = "black"))).length := by
  unfold pivot_openings at hq
  obtain ⟨n, hn, rfl⟩ := List.mem_map.mp hq
  exact ⟨rfl, rfl⟩

/-- C2 (amended): `plot_top_openings` raises a `KeyError` (modelled as
`none`) exactly when the frame has no white-win row or no black-win row,
since `unstack(fill_value=0)` then omits a column that
`nlargest(5, ['white', 'black'])` indexes.  When both outcomes occur, it
groups the rows by `(opening_name, winner)`, pivots the winner into
per-opening white and black win counts (draws are absent from this view),
and selects the 5 openings that come first when sorted by white-win count
in descending order with ties broken by black-win count in descending
order (the pandas `nlargest(5, ['white', 'black'])` lexicographic order,
not the largest combined white-plus-black count): every returned entry
carries the exact win counts of its opening, the result has at most five
rows, is sorted in that lexicographic order, and every returned entry is
lexicographically at least every opening left out. -/
theorem C2_top_openings (df : DataFrame) :
    ((plot_top_openings df).1 = none ↔
      ((∀ g ∈ df.rows, g.winner ≠ "white") ∨
       (∀ g ∈ df.rows, g.winner ≠ "black"))) ∧
    (∀ res, (plot_top_openings df).1 = some res →
      (res.length ≤ 5) ∧
      (∀ p ∈ res,
         p.2.1 = (df.rows.filter (fun g => decide (g.opening_name = p.1) &&
                    decide (g.winner = "white"))).length ∧
         p.2.2 = (df.rows.filter (fun g => decide (g.opening_name = p.1) &&
                    decide (g.winner = "black"))).length) ∧
      List.Pairwise leWB res ∧
      (∀ q ∈ pivot_openings df.rows, q ∉ res → ∀ p ∈ res, leWB p q)) := by
  haveI : IsTotal (String × Nat × Nat) leWB := ⟨leWB_total⟩
  haveI : IsTrans (String × Nat × Nat) leWB := ⟨leWB_trans⟩
  set s := List.insertionSort leWB (pivot_openings df.rows) with hs
  have hsorted : List.Pairwise leWB s := List.sorted_insertionSort leWB _
  by_cases hcond : ((df.rows.any fun g => decide (g.winner = "white")) &&
      (df.rows.any fun g => decide (g.winner = "black"))) = true
  · have hval : plot_top_openings df = (some (s.take 5), df) := by
      unfold plot_top_openings
      rw [if_pos hcond]
    obtain ⟨hw, hb⟩ := Bool.and_eq_true_iff.mp hcond
    obtain ⟨gw, hgw, hgww⟩ := List.any_eq_true.mp hw
    obtain ⟨gb, hgb, hgbw⟩ := List.any_eq_true.mp hb
    constructor
    · rw [hval]
      constructor
      · intro h
        exact absurd h (by simp)
      · intro hdisj
        exfalso
        rcases hdisj with h | h
        · exact h gw hgw (by simpa using hgww)
        · exact h gb hgb (by simpa using hgbw)
    · intro res hres
      rw [hval] at hres
      have hres' : res = s.take 5 := (Option.some.inj hres).symm
      subst hres'
      refine ⟨?_, ?_, ?_, ?_⟩
      · rw [List.length_take]
        omega
      · intro p hp
        have hps : p ∈ s := (List.take_sublist 5 s).mem hp
        have hppiv : p ∈ pivot_openings df.rows :=
          (List.perm_insertionSort leWB _).mem_iff.mp hps
        exact pivot_openings_counts df.rows p hppiv
      · exact List.Pairwise.sublist (List.take_sublist 5 s) hsorted
      · intro q hq hqres p hp
        have hqs : q ∈ s := (List.perm_insertionSort leWB _).mem_iff.mpr hq
        have hsplit : s = s.take 5 ++ s.drop 5 := (List.take_append_drop 5 s).symm
        have hcross : ∀ a ∈ s.take 5, ∀ b ∈ s.drop 5, leWB a b := by
          have := hsplit ▸ hsorted
          exact (List.pairwise_append.mp this).2.2
        have hqdrop : q ∈ s.drop 5 := by
          rcases (List.mem_append.mp (hsplit ▸ hqs)) with h | h
          · exact absurd h hqres
          · exact h
        exact hcross p hp q hqdrop
  · have hval : plot_top_openings df = (none, df) := by
      unfold plot_top_openings
      rw [if_neg hcond]
    constructor
    · rw [hval]
      constructor
      · intro _
        by_cases hw : (df.rows.any fun g => decide (g.winner = "white")) = true
        · have hb : ¬(df.rows.any fun g => decide (g.winner = "black")) = true := by
            intro hb
            exact hcond (by rw [hw, hb]; rfl)
          exact Or.inr fun g hg hgw =>
            hb (List.any_eq_true.mpr ⟨g, hg, by simpa using hgw⟩)
        · exact Or.inl fun g hg hgw =>
            hw (List.any_eq_true.mpr ⟨g, hg, by simpa using hgw⟩)
      · intro _
        rfl
    · intro res hres
      rw [hval] at hres
      exact absurd hres (by simp)

/-- The table refuting C2's selection rule: openings A-E each have two
white wins and no black wins (combined count 2), while opening F has one
white win and three black wins (combined count 4). -/
def dfC2 : DataFrame :=
  ⟨[mkGame "A" "white", mkGame "A" "white",
    mkGame "B" "white", mkGame "B" "white",
    mkGame "C" "white", mkGame "C" "white",
    mkGame "D" "white", mkGame "D" "white",
    mkGame "E" "white", mkGame "E" "white",
    mkGame "F" "white", mkGame "F" "black",
    mkGame "F" "black", mkGame "F" "black"], []⟩

/-- C2: the claim reads "selects the 5 openings whose combined white-wins
plus black-wins count is largest".  On `dfC2` the code's
`nlargest(5, ['white', 'black'])` selects A-E (white count 2 beats F's
white count 1) even though F's combined count 4 exceeds every selected
opening's combined count 2, so the selection is not by combined count. -/
theorem C2_counterexample :
    (((plot_top_openings dfC2).1.getD []).map (fun p => p.1) =
       ["A", "B", "C", "D", "E"]) ∧
    (∀ p ∈ (plot_top_openings dfC2).1.getD [], p.2.1 + p.2.2 < 1 + 3) ∧
    ("F", 1, 3) ∈ pivot_openings dfC2.rows := by
  decide

/-- C2 witness: on the concrete table `dfC2` (which has both white-win
and black-win rows, so the call succeeds), opening A (white 2, black 0)
is selected and dominates the unselected opening F (white 1, black 3) in
the nlargest order. -/
theorem C2_witness : leWB ("A", 2, 0) ("F", 1, 3) :=
  ((C2_top_openings dfC2).2
      [("A", 2, 0), ("B", 2, 0), ("C", 2, 0), ("D", 2, 0), ("E", 2, 0)]
      (by decide)).2.2.2 ("F", 1, 3) (by decide) (by decide)
    ("A", 2, 0) (by decide)

/-- A small concrete frame: two Slav Defense rows and one other opening. -/
def dfSmall : DataFrame :=
  ⟨[sampleGame, sampleGame, mkGame "Kings Pawn Game" "black"], []⟩

/-- C6 witness: on the concrete frame `dfSmall`, the top entry's count 2
is the row count of its opening. -/
theorem C6_witness :
    (("Slav Defense", 2, "#FFBE0B") : String × Nat × String).2.1 =
      (dfSmall.rows.map Game.opening_name).count "Slav Defense" :=
  (C6_most_played dfSmall).2.2.2.1 ("Slav Defense", 2, "#FFBE0B") (by decide)
